import Mathlib

/-!
Verification of `ultralytics/models/yolo/human/val.py` (`HumanValidator`).

Shallow embedding conventions:
* Tensor entries are modelled by `EF`, an exact-arithmetic version of an IEEE
  float: a rational number, `+inf`, `-inf`, or `nan`.  Rounding is not
  modelled (values are exact rationals) but the special values produced by
  division by zero and their propagation through subtraction, `abs`,
  `clip` and `==` follow IEEE-754 as implemented by torch.
* A 1-D tensor is `List EF`; a 2-D tensor is `List (List EF)` (rows).
* A batch dict is an association list `String × BVal`.
* Methods that can raise (KeyError, IndexError, shape mismatch) return
  `Except String _`; the Python code mutates `self.metrics` only after all
  fallible tensor operations, which the embedding mirrors by building the
  new metrics record inside the success branch only.
-/

namespace HumanVal

/-- Decidable equality for `Except`, so witnesses can be checked by
`decide`. -/
instance {e a : Type} [DecidableEq e] [DecidableEq a] : DecidableEq (Except e a) :=
  fun x y =>
    match x, y with
    | .ok x', .ok y' =>
        if h : x' = y' then .isTrue (by rw [h]) else .isFalse (by simp [h])
    | .error x', .error y' =>
        if h : x' = y' then .isTrue (by rw [h]) else .isFalse (by simp [h])
    | .ok _, .error _ => .isFalse (by simp)
    | .error _, .ok _ => .isFalse (by simp)

/-- Extended value: exact rational, infinities, or NaN (torch float semantics
without rounding). -/
inductive EF where
  | fin (q : ℚ)
  | inf
  | ninf
  | nan
deriving DecidableEq, Repr

namespace EF

/-- IEEE subtraction `a - b` on extended values. -/
def sub : EF → EF → EF
  | fin a, fin b => fin (a - b)
  | fin _, inf => ninf
  | fin _, ninf => inf
  | inf, fin _ => inf
  | inf, ninf => inf
  | ninf, fin _ => ninf
  | ninf, inf => ninf
  | inf, inf => nan
  | ninf, ninf => nan
  | nan, _ => nan
  | _, nan => nan

/-- IEEE absolute value on extended values. -/
def efAbs : EF → EF
  | fin a => fin (if a < 0 then -a else a)
  | inf => inf
  | ninf => inf
  | nan => nan

/-- IEEE division `a / b` on extended values (single unsigned zero). -/
def div : EF → EF → EF
  | fin a, fin b =>
      if b = 0 then
        if a = 0 then nan else if 0 < a then inf else ninf
      else fin (a / b)
  | fin _, inf => fin 0
  | fin _, ninf => fin 0
  | inf, fin b => if 0 ≤ b then inf else ninf
  | ninf, fin b => if 0 ≤ b then ninf else inf
  | inf, inf => nan
  | inf, ninf => nan
  | ninf, inf => nan
  | ninf, ninf => nan
  | nan, _ => nan
  | _, nan => nan

/-- `torch.clip(x, 0, 1)` = `clamp`: NaN propagates, infinities saturate. -/
def clip01 : EF → EF
  | fin a => fin (if a < 0 then 0 else if 1 < a then 1 else a)
  | inf => fin 1
  | ninf => fin 0
  | nan => nan

/-- `(a == b).float()`: IEEE equality indicator; NaN compares unequal to
everything, including itself. -/
def eqInd : EF → EF → EF
  | fin a, fin b => if a = b then fin 1 else fin 0
  | inf, inf => fin 1
  | ninf, ninf => fin 1
  | _, _ => fin 0

/-- `x` is a finite value in the closed interval `[0, 1]`. -/
def inUnit : EF → Bool
  | fin a => decide (0 ≤ a ∧ a ≤ 1)
  | _ => false

end EF

/-- The raw per-element accuracy for a continuous attribute
(lines 70/71/73): `1 - |pred - gt| / gt`, before clipping. -/
def rawCont (p g : EF) : EF :=
  EF.sub (EF.fin 1) (EF.div (EF.efAbs (EF.sub p g)) g)

/-- The per-element value appended for a continuous attribute: `rawCont`
followed by the `clip(0, 1)` applied at the appends on lines 76/77/79. -/
def accCont (p g : EF) : EF :=
  (rawCont p g).clip01

/-- Column `j` of a 2-D tensor (`t[:, j]`); rows are guaranteed long enough
by the shape checks at the call sites, `nan` is an unreachable default. -/
def col (j : ℕ) (t : List (List EF)) : List EF :=
  t.map (fun r => r.getD j EF.nan)

/-- `torch.argmax` over a 1-D slice: index of the first maximal element
(`0` on the empty slice, which torch would reject; call sites are nonempty). -/
def argmaxIdx (xs : List EF) : ℕ :=
  match xs with
  | [] => 0
  | x :: rest => go rest x 0 1
where
  go : List EF → EF → ℕ → ℕ → ℕ
    | [], _, best, _ => best
    | y :: ys, m, best, i =>
        match m, y with
        | EF.fin a, EF.fin b =>
            if a < b then go ys (EF.fin b) i (i + 1) else go ys (EF.fin a) best (i + 1)
        | EF.ninf, EF.fin b => go ys (EF.fin b) i (i + 1)
        | EF.ninf, EF.inf => go ys EF.inf i (i + 1)
        | EF.fin _, EF.inf => go ys EF.inf i (i + 1)
        | m', _ => go ys m' best (i + 1)

/-- Elementwise binary op with torch's 1-D broadcasting: equal lengths zip,
a singleton broadcasts against the other side, anything else raises. -/
def bop (f : EF → EF → EF) (xs ys : List EF) : Except String (List EF) :=
  if xs.length = ys.length then .ok (List.zipWith f xs ys)
  else
    match xs, ys with
    | [x], ys' => .ok (ys'.map (fun y => f x y))
    | xs', [y] => .ok (xs'.map (fun x => f x y))
    | _, _ => .error "RuntimeError: shape mismatch"

/-- Modelled from the spec: `ultralytics.engine.results.Human` (not under
`src/`) wraps the `[M, 11]` prediction tensor, whose columns the spec reads
positionally as weight, height, gender logits, age, ethnicity logits; the
`cls_` accessors are argmax over the logit slices. -/
structure Human where
  data : List (List EF)
deriving DecidableEq, Repr

def Human.weight (h : Human) : List EF := col 0 h.data

def Human.height (h : Human) : List EF := col 1 h.data

def Human.cls_gender (h : Human) : List EF :=
  h.data.map (fun r => EF.fin (argmaxIdx ((r.drop 2).take 2)))

def Human.age (h : Human) : List EF := col 4 h.data

def Human.cls_ethnicity (h : Human) : List EF :=
  h.data.map (fun r => EF.fin (argmaxIdx (r.drop 5)))

/-- `len(preds)` for a `Human`: number of rows of the wrapped tensor. -/
def Human.len (h : Human) : ℕ := h.data.length

/-- dtype tag of a tensor (`float` = float32, `half` = float16). -/
inductive DType where
  | f32
  | f16
deriving DecidableEq, Repr

/-- A tensor as the module sees it: payload plus device and dtype tags.
Numeric content is carried exactly; `.half()`/`.float()` only retag. -/
structure Tensor where
  data : List (List EF)
  device : String
  dtype : DType
deriving DecidableEq, Repr

def Tensor.toDev (t : Tensor) (dev : String) : Tensor := { t with device := dev }

def Tensor.toHalf (t : Tensor) : Tensor := { t with dtype := DType.f16 }

def Tensor.toFloat (t : Tensor) : Tensor := { t with dtype := DType.f32 }

/-- A value stored in a batch dict: a tensor, a list of file paths
(`im_file`), or some unrelated payload for keys this module never touches. -/
inductive BVal where
  | tens (t : Tensor)
  | strs (ss : List String)
  | other (n : ℕ)
deriving DecidableEq, Repr

/-- A batch dict. -/
def Batch := List (String × BVal)

def Batch.lookup (b : Batch) (k : String) : Option BVal :=
  match b with
  | [] => none
  | (k', v) :: rest => if k' = k then some v else Batch.lookup rest k

/-- `b[k] = v` on a dict whose key `k` is present (reassignment). -/
def Batch.setK (b : Batch) (k : String) (v : BVal) : Batch :=
  b.map (fun kv => if kv.1 = k then (k, v) else kv)

/-- `b[k]` where a tensor is expected: KeyError if absent, type error
otherwise. -/
def Batch.getTensor (b : Batch) (k : String) : Except String Tensor :=
  match Batch.lookup b k with
  | some (BVal.tens t) => .ok t
  | some _ => .error ("TypeError: " ++ k)
  | none => .error ("KeyError: " ++ k)

def Batch.getStrs (b : Batch) (k : String) : Except String (List String) :=
  match Batch.lookup b k with
  | some (BVal.strs ss) => .ok ss
  | some _ => .error ("TypeError: " ++ k)
  | none => .error ("KeyError: " ++ k)

/-- The arguments this class reads. -/
structure Args where
  task : String
  half : Bool
  save_txt : Bool
  save_conf : Bool
deriving DecidableEq, Repr

/-- The five per-attribute accumulator lists of `HumanMetrics.attrs_stats`. -/
structure HMetrics where
  weight : List (List EF)
  height : List (List EF)
  gender : List (List EF)
  age : List (List EF)
  ethnicity : List (List EF)
deriving DecidableEq, Repr

/-- Modelled from the spec: a fresh `HumanMetrics()` accumulator (class not
under `src/`), with empty per-attribute stats lists. -/
def HMetrics.init : HMetrics := ⟨[], [], [], [], []⟩

/-- The validator state this module owns. -/
structure Validator where
  args : Args
  metrics : HMetrics
  device : String
  save_dir : String
deriving DecidableEq, Repr

/-- `HumanValidator.__init__` (lines 28-31): forwards to the base class,
forces `args.task = "human"`, installs a fresh `HumanMetrics()`. -/
def HumanValidator.init (args : Args) (device save_dir : String) : Validator :=
  { args := { args with task := "human" }
    metrics := HMetrics.init
    device := device
    save_dir := save_dir }

/-- `HumanValidator.preprocess` (lines 41-46): moves `batch["img"]` to the
device and casts it to half iff `args.half` else to float, moves
`batch["attributes"]` to the device and casts it to float; returns the
(mutated) batch. -/
def preprocessE (v : Validator) (b : Batch) : Except String Batch := do
  let img ← Batch.getTensor b "img"
  let img := img.toDev v.device
  let img := if v.args.half then img.toHalf else img.toFloat
  let b := Batch.setK b "img" (BVal.tens img)
  let attrs ← Batch.getTensor b "attributes"
  let b := Batch.setK b "attributes" (BVal.tens ((attrs.toDev v.device).toFloat))
  pure b

/-- The argument of `HumanValidator.postprocess`: a bare tensor, a Python
tuple, or a Python list of tensors. -/
inductive PredsIn where
  | tens (t : Tensor)
  | tup (ts : List Tensor)
  | lst (ts : List Tensor)
deriving DecidableEq, Repr

/-- `HumanValidator.postprocess` (lines 48-50):
`preds[0] if isinstance(preds, (tuple, list)) else preds`; indexing an
empty tuple/list raises IndexError. -/
def postprocess : PredsIn → Except String PredsIn
  | PredsIn.tens t => .ok (PredsIn.tens t)
  | PredsIn.tup [] => .error "IndexError"
  | PredsIn.lst [] => .error "IndexError"
  | PredsIn.tup (t :: _) => .ok (PredsIn.tens t)
  | PredsIn.lst (t :: _) => .ok (PredsIn.tens t)

/-- `pathlib.Path(s).stem`: final path component without its last suffix
(cpython: take the part after the last slash, then drop from the last dot
if that dot's index `i` satisfies `0 < i < len(name) - 1`).  Implemented on
character lists by structural recursion. -/
def stem (s : String) : String :=
  let cs := s.data
  let base :=
    match (cs.reverse).findIdx? (fun c => c = '/') with
    | none => cs
    | some j => cs.drop (cs.length - j)
  match (base.reverse).findIdx? (fun c => c = '.') with
  | none => String.mk base
  | some j =>
      let i := base.length - 1 - j
      if 0 < i ∧ i + 1 < base.length then String.mk (base.take i)
      else String.mk base

/-- The five accuracy arrays computed on lines 63-74 of `update_metrics`
(before any append): continuous attributes via `1 - |pred - gt| / gt`,
categorical ones via the `==` indicator.  Fallible tensor ops only. -/
def computeAccs (preds : Human) (gt : List (List EF)) :
    Except String (List EF × List EF × List EF × List EF × List EF) := do
  if gt.all (fun r => 5 ≤ r.length) then
    let aw ← bop rawCont preds.weight (col 0 gt)
    let ah ← bop rawCont preds.height (col 1 gt)
    let ag ← bop EF.eqInd preds.cls_gender (col 2 gt)
    let aa ← bop rawCont preds.age (col 3 gt)
    let ae ← bop EF.eqInd preds.cls_ethnicity (col 4 gt)
    pure (aw, ah, ag, aa, ae)
  else
    .error "IndexError: attributes second dim"

/-- The five appends of lines 76-80: continuous arrays are clipped to
`[0, 1]` elementwise, categorical indicator arrays are appended as-is. -/
def appendAccs (m : HMetrics) (a : List EF × List EF × List EF × List EF × List EF) :
    HMetrics :=
  { weight := m.weight ++ [a.1.map EF.clip01]
    height := m.height ++ [a.2.1.map EF.clip01]
    gender := m.gender ++ [a.2.2.1]
    age := m.age ++ [a.2.2.2.1.map EF.clip01]
    ethnicity := m.ethnicity ++ [a.2.2.2.2] }

/-- Sequence a fallible function over a list, collecting results in order
(first error wins). -/
def seqE (g : ℕ → Except String String) : List ℕ → Except String (List String)
  | [] => .ok []
  | i :: is => do
      let y ← g i
      let ys ← seqE g is
      pure (y :: ys)

/-- The optional label-file serialization of lines 82-85: when
`args.save_txt` is set, one path `save_dir/labels/<stem>.txt` per
prediction row, indexing `batch["im_file"]`; no paths otherwise. -/
def saveTxtFiles (v : Validator) (preds : Human) (b : Batch) :
    Except String (List String) := do
  if v.args.save_txt then
    let imfs ← Batch.getStrs b "im_file"
    seqE (fun i =>
      match imfs.get? i with
      | some f => .ok (v.save_dir ++ "/labels/" ++ stem f ++ ".txt")
      | none => .error "IndexError: im_file") (List.range preds.len)
  else
    pure []

/-- `HumanValidator.update_metrics` (lines 52-85): reads
`batch["attributes"]`, computes the five accuracy arrays, appends them to
the accumulator, then optionally emits label files.  Returns the updated
validator and the list of files written. -/
def update_metricsE (v : Validator) (preds : Human) (b : Batch) :
    Except String (Validator × List String) := do
  let gtT ← Batch.getTensor b "attributes"
  let accs ← computeAccs preds gtT.data
  let m := appendAccs v.metrics accs
  let files ← saveTxtFiles v preds b
  pure ({ v with metrics := m }, files)

/-- The display-layout row built by `HumanValidator.plot_predictions`
(lines 136-148) from one `[11]` prediction row:
`[weight, height, argmax(row[3:5]), row[2], argmax(row[5:])]`. -/
def plotAttrRow (row : List EF) : List EF :=
  row.take 2 ++
    [EF.fin (argmaxIdx ((row.drop 3).take 2)), row.getD 2 EF.nan,
      EF.fin (argmaxIdx (row.drop 5))]

/-- Follows the spec's words, for comparison with `plotAttrRow`: with the
claimed column order weight, height, gender logits (2 cols), age,
ethnicity logits, the display row would be
`[weight, height, argmax(row[2:4]), row[4], argmax(row[5:])]`. -/
def plotAttrRowSpec (row : List EF) : List EF :=
  row.take 2 ++
    [EF.fin (argmaxIdx ((row.drop 2).take 2)), row.getD 4 EF.nan,
      EF.fin (argmaxIdx (row.drop 5))]

/-- A sequence of `update_metrics` calls, threading the validator state;
stops at the first raised error (the host loop does not catch). -/
def runUpdates : Validator → List (Human × Batch) → Except String Validator
  | v, [] => .ok v
  | v, (preds, b) :: rest => do
      let r ← update_metricsE v preds b
      runUpdates r.1 rest

/-! Concrete example inputs, used by witnesses and counterexamples. -/

/-- An example `[1, 11]` prediction tensor wrapped as `Human`. -/
def exHuman : Human :=
  ⟨[[EF.fin 60, EF.fin 170, EF.fin 1, EF.fin 2, EF.fin 25,
     EF.fin 0, EF.fin 1, EF.fin 0, EF.fin 0, EF.fin 0, EF.fin 0]]⟩

/-- An example image tensor. -/
def exImg : Tensor := ⟨[[EF.fin 3, EF.fin 7]], "cpu", DType.f32⟩

/-- An example ground-truth attributes tensor `[1, 5]`:
weight 50, height 180, gender 1, age 20, ethnicity 1. -/
def exAttrs : Tensor :=
  ⟨[[EF.fin 50, EF.fin 180, EF.fin 1, EF.fin 20, EF.fin 1]], "cpu", DType.f32⟩

/-- An example batch with all the keys this module touches plus one it
never touches. -/
def exBatch : Batch :=
  [("img", BVal.tens exImg),
   ("attributes", BVal.tens exAttrs),
   ("im_file", BVal.strs ["/data/p1.jpg"]),
   ("ori_shape", BVal.other 42)]

/-- An example validator with `save_txt` enabled. -/
def exV : Validator :=
  HumanValidator.init ⟨"detect", false, true, false⟩ "cuda" "runs/val"

/-- The validator state after one `update_metrics` call on the example. -/
def exV1 : Validator :=
  { exV with
      metrics :=
        { weight := [[EF.fin (4 / 5)]]
          height := [[EF.fin (17 / 18)]]
          gender := [[EF.fin 1]]
          age := [[EF.fin (3 / 4)]]
          ethnicity := [[EF.fin 1]] } }

/-- A batch missing the `"attributes"` key. -/
def exBatchNoAttrs : Batch :=
  [("img", BVal.tens exImg), ("im_file", BVal.strs ["/data/p1.jpg"])]

/-- A `[2, 5]` attributes tensor whose row count disagrees with
`exHuman`'s single prediction row. -/
def exBatchMismatch : Batch :=
  [("attributes", BVal.tens
      ⟨[[EF.fin 50, EF.fin 180, EF.fin 1, EF.fin 20, EF.fin 1],
        [EF.fin 60, EF.fin 170, EF.fin 0, EF.fin 30, EF.fin 2]], "cpu", DType.f32⟩)]

/-- A two-row `Human` for the shape-mismatch example. -/
def exHuman3 : Human :=
  ⟨[[EF.fin 60, EF.fin 170, EF.fin 1, EF.fin 2, EF.fin 25,
     EF.fin 0, EF.fin 1, EF.fin 0, EF.fin 0, EF.fin 0, EF.fin 0],
    [EF.fin 61, EF.fin 171, EF.fin 1, EF.fin 2, EF.fin 26,
     EF.fin 0, EF.fin 1, EF.fin 0, EF.fin 0, EF.fin 0, EF.fin 0],
    [EF.fin 62, EF.fin 172, EF.fin 1, EF.fin 2, EF.fin 27,
     EF.fin 0, EF.fin 1, EF.fin 0, EF.fin 0, EF.fin 0, EF.fin 0]]⟩

/-- A `[1, 11]` prediction whose weight is `0`, matched below against a
ground-truth weight of `0` (the `0/0` case). -/
def zHuman : Human :=
  ⟨[[EF.fin 0, EF.fin 170, EF.fin 1, EF.fin 2, EF.fin 25,
     EF.fin 0, EF.fin 1, EF.fin 0, EF.fin 0, EF.fin 0, EF.fin 0]]⟩

/-- A batch whose ground-truth weight is `0`. -/
def zBatch : Batch :=
  [("attributes", BVal.tens
      ⟨[[EF.fin 0, EF.fin 180, EF.fin 1, EF.fin 20, EF.fin 1]], "cpu", DType.f32⟩)]

/-- A validator with `save_txt` disabled. -/
def zV : Validator :=
  HumanValidator.init ⟨"human", false, false, false⟩ "cuda" "runs/val"

/-- The state after running `update_metrics` on the `0/0` example: the
appended weight accuracy is NaN. -/
def zV1 : Validator :=
  { zV with
      metrics :=
        { weight := [[EF.nan]]
          height := [[EF.fin (17 / 18)]]
          gender := [[EF.fin 1]]
          age := [[EF.fin (3 / 4)]]
          ethnicity := [[EF.fin 1]] } }

/-- The `[11]` prediction row separating the code's column reading from
the spec's: columns `[10, 20, 30, 0, 1, 5, 4, 3, 2, 1, 0]`. -/
def c4row : List EF :=
  [EF.fin 10, EF.fin 20, EF.fin 30, EF.fin 0, EF.fin 1,
   EF.fin 5, EF.fin 4, EF.fin 3, EF.fin 2, EF.fin 1, EF.fin 0]

end HumanVal
/-! Helper lemmas shared by the claim theorems. -/
namespace HumanVal

theorem ok_bind {a b : Type} (x : a) (f : a → Except String b) :
    (Except.ok x >>= f : Except String b) = f x := rfl

theorem err_bind {a b : Type} (e : String) (f : a → Except String b) :
    (Except.error e >>= f : Except String b) = Except.error e := rfl

theorem pure_eq_ok {a : Type} (x : a) : (pure x : Except String a) = Except.ok x := rfl

theorem bop_eq_zipWith (f : EF → EF → EF) (xs ys : List EF)
    (h : xs.length = ys.length) : bop f xs ys = .ok (List.zipWith f xs ys) := by
  simp [bop, h]

theorem bop_error (f : EF → EF → EF) (xs ys : List EF)
    (h : xs.length ≠ ys.length) (hx : xs.length ≠ 1) (hy : ys.length ≠ 1) :
    bop f xs ys = .error "RuntimeError: shape mismatch" := by
  unfold bop
  rw [if_neg h]
  rcases xs with _ | ⟨x, _ | ⟨x2, xs⟩⟩
  · rcases ys with _ | ⟨y, _ | ⟨y2, ys⟩⟩
    · exact absurd rfl h
    · exact absurd rfl hy
    · rfl
  · exact absurd rfl hx
  · rcases ys with _ | ⟨y, _ | ⟨y2, ys⟩⟩
    · rfl
    · exact absurd rfl hy
    · rfl

theorem Human.weight_length (p : Human) : p.weight.length = p.data.length := by
  simp [Human.weight, col]

theorem Human.height_length (p : Human) : p.height.length = p.data.length := by
  simp [Human.height, col]

theorem Human.cls_gender_length (p : Human) : p.cls_gender.length = p.data.length := by
  simp [Human.cls_gender]

theorem Human.age_length (p : Human) : p.age.length = p.data.length := by
  simp [Human.age, col]

theorem Human.cls_ethnicity_length (p : Human) : p.cls_ethnicity.length = p.data.length := by
  simp [Human.cls_ethnicity]

theorem col_length (j : ℕ) (t : List (List EF)) : (col j t).length = t.length := by
  simp [col]

theorem computeAccs_ok (p : Human) (gt : List (List EF))
    (hrect : gt.all (fun r => 5 ≤ r.length) = true)
    (hlen : p.data.length = gt.length) :
    computeAccs p gt = .ok
      (List.zipWith rawCont p.weight (col 0 gt),
       List.zipWith rawCont p.height (col 1 gt),
       List.zipWith EF.eqInd p.cls_gender (col 2 gt),
       List.zipWith rawCont p.age (col 3 gt),
       List.zipWith EF.eqInd p.cls_ethnicity (col 4 gt)) := by
  have h0 : p.weight.length = (col 0 gt).length := by
    rw [Human.weight_length, col_length, hlen]
  have h1 : p.height.length = (col 1 gt).length := by
    rw [Human.height_length, col_length, hlen]
  have h2 : p.cls_gender.length = (col 2 gt).length := by
    rw [Human.cls_gender_length, col_length, hlen]
  have h3 : p.age.length = (col 3 gt).length := by
    rw [Human.age_length, col_length, hlen]
  have h4 : p.cls_ethnicity.length = (col 4 gt).length := by
    rw [Human.cls_ethnicity_length, col_length, hlen]
  simp [computeAccs, hrect, bop_eq_zipWith _ _ _ h0, bop_eq_zipWith _ _ _ h1,
    bop_eq_zipWith _ _ _ h2, bop_eq_zipWith _ _ _ h3, bop_eq_zipWith _ _ _ h4,
    ok_bind, pure_eq_ok]

theorem update_metricsE_ok (v : Validator) (preds : Human) (b : Batch)
    (t : Tensor) (accs : List EF × List EF × List EF × List EF × List EF)
    (fs : List String)
    (hT : Batch.getTensor b "attributes" = .ok t)
    (hacc : computeAccs preds t.data = .ok accs)
    (hfs : saveTxtFiles v preds b = .ok fs) :
    update_metricsE v preds b = .ok ({ v with metrics := appendAccs v.metrics accs }, fs) := by
  simp [update_metricsE, hT, hacc, hfs, ok_bind, pure_eq_ok]

theorem update_metricsE_ok_inv (v : Validator) (preds : Human) (b : Batch)
    (v' : Validator) (fs : List String)
    (h : update_metricsE v preds b = .ok (v', fs)) :
    ∃ t accs, Batch.getTensor b "attributes" = .ok t ∧
      computeAccs preds t.data = .ok accs ∧
      saveTxtFiles v preds b = .ok fs ∧
      v' = { v with metrics := appendAccs v.metrics accs } := by
  cases hT : Batch.getTensor b "attributes" with
  | error e => simp [update_metricsE, hT, err_bind] at h
  | ok t =>
    cases hacc : computeAccs preds t.data with
    | error e => simp [update_metricsE, hT, hacc, ok_bind, err_bind] at h
    | ok accs =>
      cases hfs : saveTxtFiles v preds b with
      | error e => simp [update_metricsE, hT, hacc, hfs, ok_bind, err_bind] at h
      | ok fs' =>
        simp only [update_metricsE, hT, hacc, hfs, ok_bind, pure_eq_ok,
          Except.ok.injEq, Prod.mk.injEq] at h
        exact ⟨t, accs, rfl, hacc, by rw [h.2], h.1.symm⟩

theorem efAbs_fin (a : ℚ) : EF.efAbs (EF.fin a) = EF.fin |a| := by
  simp only [EF.efAbs]
  rcases lt_or_le a 0 with h | h
  · rw [if_pos h, abs_of_neg h]
  · rw [if_neg (not_lt.mpr h), abs_of_nonneg h]

theorem clip01_fin (a : ℚ) :
    EF.clip01 (EF.fin a) = EF.fin (max 0 (min 1 a)) := by
  simp only [EF.clip01, max_def, min_def]
  split_ifs <;> first | rfl | (exfalso; linarith) | (congr 1; linarith)

theorem accCont_of_pos (p g : ℚ) (h : 0 < g) :
    accCont (EF.fin p) (EF.fin g) = EF.fin (max 0 (min 1 (1 - |p - g| / g))) := by
  rw [accCont, rawCont]
  simp [EF.sub, efAbs_fin, EF.div, h.ne', clip01_fin]

theorem zipWith_clip_rawCont (xs ys : List EF) :
    List.zipWith (fun x y => (rawCont x y).clip01) xs ys = List.zipWith accCont xs ys := rfl

theorem update_metricsE_state (v : Validator) (preds : Human) (b : Batch)
    (v' : Validator) (fs : List String) (t : Tensor)
    (hrun : update_metricsE v preds b = .ok (v', fs))
    (hT : Batch.getTensor b "attributes" = .ok t)
    (hlen : preds.data.length = t.data.length) :
    v'.metrics.weight =
        v.metrics.weight ++ [List.zipWith accCont preds.weight (col 0 t.data)] ∧
    v'.metrics.height =
        v.metrics.height ++ [List.zipWith accCont preds.height (col 1 t.data)] ∧
    v'.metrics.gender =
        v.metrics.gender ++ [List.zipWith EF.eqInd preds.cls_gender (col 2 t.data)] ∧
    v'.metrics.age =
        v.metrics.age ++ [List.zipWith accCont preds.age (col 3 t.data)] ∧
    v'.metrics.ethnicity =
        v.metrics.ethnicity ++ [List.zipWith EF.eqInd preds.cls_ethnicity (col 4 t.data)] := by
  obtain ⟨t', accs, hT', hacc, hfs, hv'⟩ := update_metricsE_ok_inv v preds b v' fs hrun
  rw [hT] at hT'
  injection hT' with ht
  subst ht
  cases hrect : t.data.all (fun r => 5 ≤ r.length) with
  | false => simp [computeAccs, hrect] at hacc
  | true =>
    rw [computeAccs_ok preds t.data hrect hlen] at hacc
    injection hacc with haccs
    subst haccs
    subst hv'
    refine ⟨?_, ?_, ?_, ?_, ?_⟩ <;>
      simp [appendAccs, List.map_zipWith, zipWith_clip_rawCont]

theorem update_metricsE_args (v : Validator) (preds : Human) (b : Batch)
    (v' : Validator) (fs : List String)
    (h : update_metricsE v preds b = .ok (v', fs)) : v'.args = v.args := by
  obtain ⟨t, accs, -, -, -, hv'⟩ := update_metricsE_ok_inv v preds b v' fs h
  rw [hv']

theorem update_metricsE_lengths (v : Validator) (preds : Human) (b : Batch)
    (v' : Validator) (fs : List String)
    (h : update_metricsE v preds b = .ok (v', fs)) :
    v'.metrics.weight.length = v.metrics.weight.length + 1 ∧
    v'.metrics.height.length = v.metrics.height.length + 1 ∧
    v'.metrics.gender.length = v.metrics.gender.length + 1 ∧
    v'.metrics.age.length = v.metrics.age.length + 1 ∧
    v'.metrics.ethnicity.length = v.metrics.ethnicity.length + 1 := by
  obtain ⟨t, accs, -, -, -, hv'⟩ := update_metricsE_ok_inv v preds b v' fs h
  subst hv'
  simp [appendAccs]

theorem runUpdates_lengths : ∀ (inputs : List (Human × Batch)) (v v' : Validator),
    runUpdates v inputs = .ok v' →
    v'.metrics.weight.length = v.metrics.weight.length + inputs.length ∧
    v'.metrics.height.length = v.metrics.height.length + inputs.length ∧
    v'.metrics.gender.length = v.metrics.gender.length + inputs.length ∧
    v'.metrics.age.length = v.metrics.age.length + inputs.length ∧
    v'.metrics.ethnicity.length = v.metrics.ethnicity.length + inputs.length
  | [], v, v', h => by
    rw [runUpdates] at h
    injection h with h
    subst h
    simp
  | (p, b) :: rest, v, v', h => by
    rw [runUpdates] at h
    cases hstep : update_metricsE v p b with
    | error e => rw [hstep, err_bind] at h; exact absurd h (by simp)
    | ok r =>
      rw [hstep, ok_bind] at h
      have h1 := update_metricsE_lengths v p b r.1 r.2 (by rw [hstep])
      have h2 := runUpdates_lengths rest r.1 v' h
      refine ⟨?_, ?_, ?_, ?_, ?_⟩ <;> simp only [List.length_cons] <;> omega

theorem runUpdates_args : ∀ (inputs : List (Human × Batch)) (v v' : Validator),
    runUpdates v inputs = .ok v' → v'.args = v.args
  | [], v, v', h => by
    rw [runUpdates] at h
    injection h with h
    subst h
    rfl
  | (p, b) :: rest, v, v', h => by
    rw [runUpdates] at h
    cases hstep : update_metricsE v p b with
    | error e => rw [hstep, err_bind] at h; exact absurd h (by simp)
    | ok r =>
      rw [hstep, ok_bind] at h
      rw [runUpdates_args rest r.1 v' h,
        update_metricsE_args v p b r.1 r.2 (by rw [hstep])]

theorem lookup_setK_ne : ∀ (b : Batch) (k k' : String) (v : BVal), k ≠ k' →
    Batch.lookup (Batch.setK b k v) k' = Batch.lookup b k'
  | [], _, _, _, _ => rfl
  | (k0, v0) :: rest, k, k', v, h => by
    by_cases h0 : k0 = k
    · show Batch.lookup ((if k0 = k then (k, v) else (k0, v0)) :: Batch.setK rest k v) k'
        = Batch.lookup ((k0, v0) :: rest) k'
      rw [if_pos h0]
      show (if k = k' then some v else Batch.lookup (Batch.setK rest k v) k')
        = (if k0 = k' then some v0 else Batch.lookup rest k')
      rw [if_neg h, if_neg (fun hkk => h (h0.symm.trans hkk))]
      exact lookup_setK_ne rest k k' v h
    · show Batch.lookup ((if k0 = k then (k, v) else (k0, v0)) :: Batch.setK rest k v) k'
        = Batch.lookup ((k0, v0) :: rest) k'
      rw [if_neg h0]
      show (if k0 = k' then some v0 else Batch.lookup (Batch.setK rest k v) k')
        = (if k0 = k' then some v0 else Batch.lookup rest k')
      by_cases h1 : k0 = k'
      · rw [if_pos h1, if_pos h1]
      · rw [if_neg h1, if_neg h1]
        exact lookup_setK_ne rest k k' v h

theorem lookup_setK_self : ∀ (b : Batch) (k : String) (v w : BVal),
    Batch.lookup b k = some w → Batch.lookup (Batch.setK b k v) k = some v
  | [], k, v, w, h => by simp [Batch.lookup] at h
  | (k0, v0) :: rest, k, v, w, h => by
    by_cases h0 : k0 = k
    · show Batch.lookup ((if k0 = k then (k, v) else (k0, v0)) :: Batch.setK rest k v) k
        = some v
      rw [if_pos h0]
      show (if k = k then some v else Batch.lookup (Batch.setK rest k v) k) = some v
      rw [if_pos rfl]
    · show Batch.lookup ((if k0 = k then (k, v) else (k0, v0)) :: Batch.setK rest k v) k
        = some v
      rw [if_neg h0]
      show (if k0 = k then some v0 else Batch.lookup (Batch.setK rest k v) k) = some v
      rw [if_neg h0]
      have h2 : (if k0 = k then some v0 else Batch.lookup rest k) = some w := h
      rw [if_neg h0] at h2
      exact lookup_setK_self rest k v w h2

theorem half_float_cast (t : Tensor) (h : Bool) :
    (if h then t.toHalf else t.toFloat) =
      { t with dtype := if h then DType.f16 else DType.f32 } := by
  cases h <;> rfl

theorem seqE_ok (g : ℕ → Except String String) :
    ∀ (l : List ℕ) (out : List String), seqE g l = .ok out →
      out.length = l.length ∧
      ∀ i x, l.get? i = some x → ∃ y, g x = .ok y ∧ out.get? i = some y
  | [], out, h => by
    rw [seqE] at h
    injection h with h
    subst h
    exact ⟨rfl, fun i x hx => by simp at hx⟩
  | i0 :: is, out, h => by
    rw [seqE] at h
    cases hg : g i0 with
    | error e => rw [hg, err_bind] at h; exact absurd h (by simp)
    | ok y =>
      rw [hg, ok_bind] at h
      cases hrest : seqE g is with
      | error e => rw [hrest, err_bind] at h; exact absurd h (by simp)
      | ok ys =>
        rw [hrest, ok_bind, pure_eq_ok] at h
        injection h with h
        subst h
        obtain ⟨hlen, helts⟩ := seqE_ok g is ys hrest
        refine ⟨by simp [hlen], fun i x hx => ?_⟩
        cases i with
        | zero =>
          rw [List.get?] at hx
          injection hx with hx
          subst hx
          exact ⟨y, hg, rfl⟩
        | succ n =>
          rw [List.get?] at hx
          obtain ⟨y', hy', hout⟩ := helts n x hx
          exact ⟨y', hy', hout⟩

/-! Concrete-input evaluation lemmas used by witnesses. -/

theorem exT : Batch.getTensor exBatch "attributes" = .ok exAttrs := by
  simp +decide [Batch.getTensor, Batch.lookup, exBatch, exAttrs]

theorem exAccs : computeAccs exHuman exAttrs.data =
    .ok ([EF.fin (4/5)], [EF.fin (17/18)], [EF.fin 1], [EF.fin (3/4)], [EF.fin 1]) := by
  norm_num [computeAccs, bop, col, Human.weight, Human.height, Human.cls_gender,
    Human.age, Human.cls_ethnicity, argmaxIdx, argmaxIdx.go, rawCont,
    EF.sub, EF.efAbs, EF.div, EF.eqInd, exHuman, exAttrs, ok_bind, pure_eq_ok]

theorem exFs : saveTxtFiles exV exHuman exBatch = .ok ["runs/val/labels/p1.txt"] := by
  simp +decide [saveTxtFiles, Batch.getStrs, Batch.lookup, exBatch, exV, exHuman,
    HumanValidator.init, seqE, stem, Human.len, List.range, List.range.loop,
    ok_bind, pure_eq_ok]

theorem exRun : update_metricsE exV exHuman exBatch =
    .ok (exV1, ["runs/val/labels/p1.txt"]) := by
  rw [update_metricsE_ok exV exHuman exBatch exAttrs _ _ exT exAccs exFs]
  norm_num [exV, exV1, appendAccs, HumanValidator.init, HMetrics.init, EF.clip01]

theorem zRun : update_metricsE zV zHuman zBatch = .ok (zV1, []) := by
  norm_num [update_metricsE, Batch.getTensor, Batch.lookup, computeAccs, appendAccs,
    saveTxtFiles, Batch.getStrs, bop, col, Human.weight, Human.height, Human.cls_gender,
    Human.age, Human.cls_ethnicity, Human.len, argmaxIdx, argmaxIdx.go, rawCont,
    EF.sub, EF.efAbs, EF.div, EF.clip01, EF.eqInd, seqE, zV, zHuman, zBatch,
    zV1, HumanValidator.init, HMetrics.init, ok_bind, pure_eq_ok]

/-! The claims. -/

/-- C1: for every prediction/ground-truth pair whose ground-truth value for a
continuous attribute (weight, height, or age) is positive, the accuracy
score `update_metrics` appends for that attribute equals
`clip(1 - |pred - gt| / gt, 0, 1)`, i.e. 1 minus the relative absolute
error, clipped to `[0, 1]`. -/
theorem claim_C1 (v : Validator) (preds : Human) (b : Batch)
    (v' : Validator) (fs : List String) (t : Tensor) (i : ℕ) (p g : ℚ)
    (hrun : update_metricsE v preds b = .ok (v', fs))
    (hT : Batch.getTensor b "attributes" = .ok t)
    (hlen : preds.data.length = t.data.length) :
    (preds.weight.get? i = some (EF.fin p) →
      (col 0 t.data).get? i = some (EF.fin g) → 0 < g →
      ∃ arr, v'.metrics.weight = v.metrics.weight ++ [arr] ∧
        arr.get? i = some (EF.fin (max 0 (min 1 (1 - |p - g| / g))))) ∧
    (preds.height.get? i = some (EF.fin p) →
      (col 1 t.data).get? i = some (EF.fin g) → 0 < g →
      ∃ arr, v'.metrics.height = v.metrics.height ++ [arr] ∧
        arr.get? i = some (EF.fin (max 0 (min 1 (1 - |p - g| / g))))) ∧
    (preds.age.get? i = some (EF.fin p) →
      (col 3 t.data).get? i = some (EF.fin g) → 0 < g →
      ∃ arr, v'.metrics.age = v.metrics.age ++ [arr] ∧
        arr.get? i = some (EF.fin (max 0 (min 1 (1 - |p - g| / g))))) := by
  obtain ⟨hw, hh, -, ha, -⟩ :=
    update_metricsE_state v preds b v' fs t hrun hT hlen
  refine ⟨fun hp hg hpos => ⟨_, hw, ?_⟩, fun hp hg hpos => ⟨_, hh, ?_⟩,
    fun hp hg hpos => ⟨_, ha, ?_⟩⟩ <;>
    (simp only [List.get?_eq_getElem?] at hp hg ⊢
     simp [List.getElem?_zipWith', hp, hg, accCont_of_pos p g hpos])

/-- C1 witness: predicted weight 60 against ground-truth weight 50 appends
`clip(1 - 10/50, 0, 1) = 4/5` for the weight attribute. -/
theorem claim_C1_witness :
    ∃ arr, exV1.metrics.weight = exV.metrics.weight ++ [arr] ∧
      arr.get? 0 = some (EF.fin (max 0 (min 1 (1 - |(60 : ℚ) - 50| / 50)))) :=
  (claim_C1 exV exHuman exBatch exV1 ["runs/val/labels/p1.txt"] exAttrs 0 60 50
    exRun exT rfl).1 rfl rfl (by norm_num)

/-- C2: the accuracy score `update_metrics` appends for a categorical
attribute (gender, ethnicity) is exactly 1 when the predicted class equals
the ground-truth class and exactly 0 otherwise. -/
theorem claim_C2 (v : Validator) (preds : Human) (b : Batch)
    (v' : Validator) (fs : List String) (t : Tensor) (i : ℕ) (pc gc : ℚ)
    (hrun : update_metricsE v preds b = .ok (v', fs))
    (hT : Batch.getTensor b "attributes" = .ok t)
    (hlen : preds.data.length = t.data.length) :
    (preds.cls_gender.get? i = some (EF.fin pc) →
      (col 2 t.data).get? i = some (EF.fin gc) →
      ∃ arr, v'.metrics.gender = v.metrics.gender ++ [arr] ∧
        arr.get? i = some (if pc = gc then EF.fin 1 else EF.fin 0)) ∧
    (preds.cls_ethnicity.get? i = some (EF.fin pc) →
      (col 4 t.data).get? i = some (EF.fin gc) →
      ∃ arr, v'.metrics.ethnicity = v.metrics.ethnicity ++ [arr] ∧
        arr.get? i = some (if pc = gc then EF.fin 1 else EF.fin 0)) := by
  obtain ⟨-, -, hg, -, he⟩ :=
    update_metricsE_state v preds b v' fs t hrun hT hlen
  refine ⟨fun hp hgt => ⟨_, hg, ?_⟩, fun hp hgt => ⟨_, he, ?_⟩⟩ <;>
    (simp only [List.get?_eq_getElem?] at hp hgt ⊢
     simp [List.getElem?_zipWith', hp, hgt, EF.eqInd])

/-- C2 witness: predicted gender class 1 (argmax of the gender logits)
against ground-truth gender 1 appends exactly 1. -/
theorem claim_C2_witness :
    ∃ arr, exV1.metrics.gender = exV.metrics.gender ++ [arr] ∧
      arr.get? 0 = some (if (1 : ℚ) = 1 then EF.fin 1 else EF.fin 0) :=
  (claim_C2 exV exHuman exBatch exV1 ["runs/val/labels/p1.txt"] exAttrs 0 1 1
    exRun exT rfl).1 rfl rfl

/-- C3 counterexample: with predicted weight 0 and ground-truth weight 0,
`update_metrics` computes `1 - 0/0 = NaN`, `clip` propagates the NaN, and
the appended weight entry is NaN — not a value in `[0, 1]`. -/
theorem claim_C3_counterexample :
    update_metricsE zV zHuman zBatch = .ok (zV1, []) ∧
    zV1.metrics.weight = [[EF.nan]] ∧
    EF.inUnit EF.nan = false :=
  ⟨zRun, rfl, rfl⟩

/-- C3 (amended): every appended accuracy value lies in `[0, 1]` provided
that, for each continuous-attribute pair, prediction and ground truth are
finite and not both zero; categorical indicator values are always in
`[0, 1]`.  (The unamended claim fails only on the `0/0` NaN case shown in
the counterexample.) -/
theorem claim_C3_amended :
    (∀ p g : ℚ, ¬(p = 0 ∧ g = 0) →
      EF.inUnit (accCont (EF.fin p) (EF.fin g)) = true) ∧
    (∀ x y : EF, EF.inUnit (EF.eqInd x y) = true) := by
  constructor
  · intro p g hpg
    by_cases hg : g = 0
    · subst hg
      have hp : p ≠ 0 := fun h => hpg ⟨h, rfl⟩
      rw [accCont, rawCont]
      rw [show EF.sub (EF.fin p) (EF.fin 0) = EF.fin (p - 0) from rfl]
      rw [sub_zero, efAbs_fin]
      rw [show EF.div (EF.fin |p|) (EF.fin 0) = EF.inf from by
        simp [EF.div, abs_eq_zero, hp, abs_pos.mpr hp]]
      rfl
    · rw [accCont, rawCont]
      rw [show EF.sub (EF.fin p) (EF.fin g) = EF.fin (p - g) from rfl]
      rw [efAbs_fin]
      rw [show EF.div (EF.fin |p - g|) (EF.fin g) = EF.fin (|p - g| / g) from by
        simp [EF.div, hg]]
      rw [show EF.sub (EF.fin 1) (EF.fin (|p - g| / g)) =
        EF.fin (1 - |p - g| / g) from rfl]
      rw [clip01_fin]
      simp only [EF.inUnit, decide_eq_true_eq]
      exact ⟨le_max_left _ _, max_le zero_le_one (min_le_left _ _)⟩
  · intro x y
    have h1 : EF.inUnit (EF.fin 1) = true := by norm_num [EF.inUnit]
    have h0 : EF.inUnit (EF.fin 0) = true := by norm_num [EF.inUnit]
    cases x <;> cases y <;> simp only [EF.eqInd] <;>
      first
        | exact h1
        | exact h0
        | (split <;> first | exact h1 | exact h0)

/-- C3 witness for the amended statement: prediction 3 against ground
truth 0 gives `1 - ∞ = -∞`, clipped to 0, which is in `[0, 1]`; a NaN
categorical comparison yields indicator 0, also in `[0, 1]`. -/
theorem claim_C3_witness :
    EF.inUnit (accCont (EF.fin 3) (EF.fin 0)) = true ∧
    EF.inUnit (EF.eqInd EF.nan (EF.fin 1)) = true :=
  ⟨claim_C3_amended.1 3 0 (by norm_num), claim_C3_amended.2 EF.nan (EF.fin 1)⟩

/-- C4 counterexample: on the row `[10, 20, 30, 0, 1, 5, 4, 3, 2, 1, 0]`
the code places column 2 (value 30) in the age display slot and argmaxes
gender over columns 3-4, whereas the claimed column order (gender logits
immediately after height, then age) would argmax gender over columns 2-3
and display column 4 as age; the two display rows differ. -/
theorem claim_C4_counterexample :
    plotAttrRow c4row = [EF.fin 10, EF.fin 20, EF.fin 1, EF.fin 30, EF.fin 0] ∧
    plotAttrRowSpec c4row = [EF.fin 10, EF.fin 20, EF.fin 0, EF.fin 1, EF.fin 0] ∧
    plotAttrRow c4row ≠ plotAttrRowSpec c4row := by
  refine ⟨rfl, rfl, ?_⟩
  intro h
  rw [show plotAttrRow c4row =
      [EF.fin 10, EF.fin 20, EF.fin 1, EF.fin 30, EF.fin 0] from rfl,
    show plotAttrRowSpec c4row =
      [EF.fin 10, EF.fin 20, EF.fin 0, EF.fin 1, EF.fin 0] from rfl] at h
  simp only [List.cons.injEq, EF.fin.injEq] at h
  norm_num at h

/-- C4 (amended): the prediction tensor's columns are interpreted in the
order weight, height, age, gender logits (columns 3-4), ethnicity logits
(columns 5-10): `plot_predictions` derives the gender class by argmax over
columns 3-4 and the ethnicity class by argmax over columns 5 onward, and
rearranges into the display layout `[weight, height, gender class, age,
ethnicity class]` with the age taken from column 2. -/
theorem claim_C4_amended (c0 c1 c2 c3 c4 : EF) (eth : List EF) :
    plotAttrRow ([c0, c1, c2, c3, c4] ++ eth) =
      [c0, c1, EF.fin (argmaxIdx [c3, c4]), c2, EF.fin (argmaxIdx eth)] := rfl

/-- C5: `preprocess` changes only the values under `"img"` (moved to the
device, cast to half iff `args.half` else to float) and `"attributes"`
(moved to the device, cast to float); every other key's value is
unchanged. -/
theorem claim_C5 (v : Validator) (b : Batch) (ti ta : Tensor)
    (himg : Batch.lookup b "img" = some (BVal.tens ti))
    (hattr : Batch.lookup b "attributes" = some (BVal.tens ta)) :
    ∃ b', preprocessE v b = .ok b' ∧
      (∀ k, k ≠ "img" → k ≠ "attributes" →
        Batch.lookup b' k = Batch.lookup b k) ∧
      Batch.lookup b' "img" = some (BVal.tens
        { ti with device := v.device,
                  dtype := if v.args.half then DType.f16 else DType.f32 }) ∧
      Batch.lookup b' "attributes" = some (BVal.tens
        { ta with device := v.device, dtype := DType.f32 }) := by
  have himgT : Batch.getTensor b "img" = .ok ti := by
    simp [Batch.getTensor, himg]
  have h1 : Batch.lookup
      (Batch.setK b "img"
        (BVal.tens (if v.args.half then (ti.toDev v.device).toHalf
          else (ti.toDev v.device).toFloat))) "attributes" =
      some (BVal.tens ta) := by
    rw [lookup_setK_ne _ _ _ _ (by decide)]
    exact hattr
  have h1T : Batch.getTensor
      (Batch.setK b "img"
        (BVal.tens (if v.args.half then (ti.toDev v.device).toHalf
          else (ti.toDev v.device).toFloat))) "attributes" = .ok ta := by
    simp [Batch.getTensor, h1]
  refine ⟨Batch.setK
      (Batch.setK b "img"
        (BVal.tens (if v.args.half then (ti.toDev v.device).toHalf
          else (ti.toDev v.device).toFloat)))
      "attributes" (BVal.tens ((ta.toDev v.device).toFloat)), ?_, ?_, ?_, ?_⟩
  · simp [preprocessE, himgT, h1T, ok_bind, pure_eq_ok]
  · intro k hk1 hk2
    rw [lookup_setK_ne _ _ _ _ (Ne.symm hk2),
      lookup_setK_ne _ _ _ _ (Ne.symm hk1)]
  · rw [lookup_setK_ne _ _ _ _ (by decide),
      lookup_setK_self b "img" _ _ himg, half_float_cast]
    rfl
  · rw [lookup_setK_self _ "attributes" _ _ h1]
    rfl

/-- C5 witness: on the example batch, `"img"` moves to `"cuda"` as float32
(`args.half` is false), `"attributes"` moves to `"cuda"` as float32, and
the untouched keys `"im_file"` and `"ori_shape"` keep their values. -/
theorem claim_C5_witness :
    ∃ b', preprocessE exV exBatch = .ok b' ∧
      (∀ k, k ≠ "img" → k ≠ "attributes" →
        Batch.lookup b' k = Batch.lookup exBatch k) ∧
      Batch.lookup b' "img" = some (BVal.tens
        { exImg with device := exV.device,
                     dtype := if exV.args.half then DType.f16 else DType.f32 }) ∧
      Batch.lookup b' "attributes" = some (BVal.tens
        { exAttrs with device := exV.device, dtype := DType.f32 }) :=
  claim_C5 exV exBatch exImg exAttrs rfl rfl

/-- C6: starting from the fresh accumulator installed by `__init__`, any
sequence of `k` successful `update_metrics` calls leaves all five
per-attribute stats lists with length exactly `k`. -/
theorem claim_C6 (a : Args) (dev sd : String) (inputs : List (Human × Batch))
    (v' : Validator)
    (h : runUpdates (HumanValidator.init a dev sd) inputs = .ok v') :
    v'.metrics.weight.length = inputs.length ∧
    v'.metrics.height.length = inputs.length ∧
    v'.metrics.gender.length = inputs.length ∧
    v'.metrics.age.length = inputs.length ∧
    v'.metrics.ethnicity.length = inputs.length := by
  have := runUpdates_lengths inputs (HumanValidator.init a dev sd) v' h
  simpa [HumanValidator.init, HMetrics.init] using this

/-- C6 witness: one successful `update_metrics` call from a fresh validator
leaves all five stats lists with length 1. -/
theorem claim_C6_witness :
    zV1.metrics.weight.length = 1 ∧
    zV1.metrics.height.length = 1 ∧
    zV1.metrics.gender.length = 1 ∧
    zV1.metrics.age.length = 1 ∧
    zV1.metrics.ethnicity.length = 1 :=
  claim_C6 ⟨"human", false, false, false⟩ "cuda" "runs/val"
    [(zHuman, zBatch)] zV1 (by
      show runUpdates zV [(zHuman, zBatch)] = .ok zV1
      rw [runUpdates, zRun, ok_bind]
      rfl)

/-- C7: label files are written only optionally: when `args.save_txt` is
false `update_metrics` writes no files; when it is true it writes one file
per prediction row, named `save_dir/labels/<stem of the i-th image
path>.txt`. -/
theorem claim_C7 (v : Validator) (preds : Human) (b : Batch)
    (v' : Validator) (fs : List String)
    (hrun : update_metricsE v preds b = .ok (v', fs)) :
    (v.args.save_txt = false → fs = []) ∧
    (∀ imfs, v.args.save_txt = true →
      Batch.lookup b "im_file" = some (BVal.strs imfs) →
      fs.length = preds.len ∧
      ∀ i, i < preds.len →
        ∃ f, imfs.get? i = some f ∧
          fs.get? i = some (v.save_dir ++ "/labels/" ++ stem f ++ ".txt")) := by
  obtain ⟨t, accs, -, -, hfs, -⟩ := update_metricsE_ok_inv v preds b v' fs hrun
  constructor
  · intro hsave
    rw [saveTxtFiles, hsave] at hfs
    simp only [Bool.false_eq_true, if_false, pure_eq_ok] at hfs
    injection hfs with hfs
    exact hfs.symm
  · intro imfs hsave himf
    rw [saveTxtFiles, hsave] at hfs
    simp only [if_true] at hfs
    rw [show Batch.getStrs b "im_file" = .ok imfs from by
      simp [Batch.getStrs, himf], ok_bind] at hfs
    obtain ⟨hlen, helts⟩ := seqE_ok _ _ fs hfs
    refine ⟨by simp [hlen, Human.len], fun i hi => ?_⟩
    obtain ⟨y, hy, hout⟩ := helts i i (by
      simp only [List.get?_eq_getElem?]
      simp [List.getElem?_range, hi])
    cases himfi : imfs.get? i with
    | none =>
      rw [himfi] at hy
      exact absurd hy (by simp)
    | some f =>
      rw [himfi] at hy
      injection hy with hy
      exact ⟨f, rfl, by rw [hout, ← hy]⟩

/-- C7 witness: with `save_txt` enabled, the single prediction of the
example batch yields exactly the file `runs/val/labels/p1.txt`, the stem
of `/data/p1.jpg` plus `.txt`. -/
theorem claim_C7_witness :
    (["runs/val/labels/p1.txt"] : List String).length = exHuman.len ∧
    ∃ f, (["/data/p1.jpg"] : List String).get? 0 = some f ∧
      (["runs/val/labels/p1.txt"] : List String).get? 0 =
        some (exV.save_dir ++ "/labels/" ++ stem f ++ ".txt") := by
  have h := (claim_C7 exV exHuman exBatch exV1 ["runs/val/labels/p1.txt"]
    exRun).2 ["/data/p1.jpg"] rfl rfl
  exact ⟨h.1, h.2 0 (by decide)⟩

/-- C8: `update_metrics` performs no error handling of its own: a batch
missing `"attributes"` raises a KeyError, non-broadcastable row counts
raise a shape error, and a raised error is independent of the accumulated
metrics (the failure happens before any append, so the accumulator is
untouched). -/
theorem claim_C8 (v : Validator) (preds : Human) (b : Batch) :
    (Batch.lookup b "attributes" = none →
      update_metricsE v preds b = .error "KeyError: attributes") ∧
    (∀ t : Tensor, Batch.getTensor b "attributes" = .ok t →
      t.data.all (fun r => 5 ≤ r.length) = true →
      preds.data.length ≠ t.data.length →
      preds.data.length ≠ 1 → t.data.length ≠ 1 →
      ∃ e, update_metricsE v preds b = .error e) ∧
    (∀ (m : HMetrics) (e : String), update_metricsE v preds b = .error e →
      update_metricsE { v with metrics := m } preds b = .error e) := by
  refine ⟨?_, ?_, ?_⟩
  · intro hnone
    simp +decide [update_metricsE, Batch.getTensor, hnone, err_bind]
  · intro t hT hrect hne hp1 ht1
    have hw : bop rawCont preds.weight (col 0 t.data) =
        .error "RuntimeError: shape mismatch" := by
      apply bop_error
      · rw [Human.weight_length, col_length]; exact hne
      · rw [Human.weight_length]; exact hp1
      · rw [col_length]; exact ht1
    refine ⟨"RuntimeError: shape mismatch", ?_⟩
    simp only [update_metricsE, hT, ok_bind, computeAccs, hw, err_bind]
    split
    · rw [err_bind]
    · next hcond => exact absurd (by simpa using hrect) hcond
  · intro m e h
    have hargs : ({ v with metrics := m } : Validator).args = v.args := rfl
    cases hT : Batch.getTensor b "attributes" with
    | error e0 =>
      simp only [update_metricsE, hT, err_bind] at h ⊢
      exact h
    | ok t =>
      cases hacc : computeAccs preds t.data with
      | error e0 =>
        simp only [update_metricsE, hT, ok_bind, hacc, err_bind] at h ⊢
        exact h
      | ok accs =>
        cases hfs : saveTxtFiles v preds b with
        | error e0 =>
          have hfs2 : saveTxtFiles { v with metrics := m } preds b =
              .error e0 := hfs
          simp only [update_metricsE, hT, ok_bind, hacc, hfs, hfs2, err_bind] at h ⊢
          exact h
        | ok fs =>
          simp only [update_metricsE, hT, ok_bind, hacc, hfs, pure_eq_ok] at h
          exact absurd h (by simp)

/-- C8 witness: a batch without `"attributes"` raises KeyError; a 3-row
prediction against 2 ground-truth rows raises a shape error; and the
KeyError is unchanged when the accumulator's content differs. -/
theorem claim_C8_witness :
    update_metricsE zV zHuman exBatchNoAttrs = .error "KeyError: attributes" ∧
    (∃ e, update_metricsE zV exHuman3 exBatchMismatch = .error e) ∧
    update_metricsE { zV with metrics := zV1.metrics } zHuman exBatchNoAttrs =
      .error "KeyError: attributes" := by
  have h1 := (claim_C8 zV zHuman exBatchNoAttrs).1 rfl
  refine ⟨h1, ?_, (claim_C8 zV zHuman exBatchNoAttrs).2.2 zV1.metrics _ h1⟩
  exact (claim_C8 zV exHuman3 exBatchMismatch).2.1
    ⟨[[EF.fin 50, EF.fin 180, EF.fin 1, EF.fin 20, EF.fin 1],
      [EF.fin 60, EF.fin 170, EF.fin 0, EF.fin 30, EF.fin 2]], "cpu", DType.f32⟩
    rfl (by decide) (by decide) (by decide) (by decide)

/-- C9: `postprocess` is a pure selection: a nonempty tuple or list yields
its first element, and a bare tensor input is returned unchanged. -/
theorem claim_C9 :
    (∀ t : Tensor, postprocess (PredsIn.tens t) = .ok (PredsIn.tens t)) ∧
    (∀ (t : Tensor) (ts : List Tensor),
      postprocess (PredsIn.tup (t :: ts)) = .ok (PredsIn.tens t)) ∧
    (∀ (t : Tensor) (ts : List Tensor),
      postprocess (PredsIn.lst (t :: ts)) = .ok (PredsIn.tens t)) :=
  ⟨fun _ => rfl, fun _ _ => rfl, fun _ _ => rfl⟩

/-- C10: after construction, `args.task` is `"human"` regardless of the
caller-supplied task, the metrics field is a fresh accumulator, and no
later `update_metrics` call (nor any sequence of them) changes `args`. -/
theorem claim_C10 :
    (∀ (a : Args) (dev sd : String),
      (HumanValidator.init a dev sd).args.task = "human" ∧
      (HumanValidator.init a dev sd).metrics = HMetrics.init) ∧
    (∀ (v : Validator) (preds : Human) (b : Batch) (v' : Validator)
      (fs : List String),
      update_metricsE v preds b = .ok (v', fs) → v'.args = v.args) ∧
    (∀ (v : Validator) (inputs : List (Human × Batch)) (v' : Validator),
      runUpdates v inputs = .ok v' → v'.args.task = v.args.task) :=
  ⟨fun _ _ _ => ⟨rfl, rfl⟩,
   update_metricsE_args,
   fun v inputs v' h => by rw [runUpdates_args inputs v v' h]⟩

/-- C10 witness: a validator constructed with task `"detect"` ends up with
task `"human"` and fresh metrics, and a successful `update_metrics` call
leaves `args` untouched. -/
theorem claim_C10_witness :
    (HumanValidator.init ⟨"detect", true, true, true⟩ "cuda" "runs/val").args.task
      = "human" ∧
    (HumanValidator.init ⟨"detect", true, true, true⟩ "cuda" "runs/val").metrics
      = HMetrics.init ∧
    zV1.args = zV.args :=
  ⟨(claim_C10.1 ⟨"detect", true, true, true⟩ "cuda" "runs/val").1,
   (claim_C10.1 ⟨"detect", true, true, true⟩ "cuda" "runs/val").2,
   claim_C10.2.1 zV zHuman zBatch zV1 [] zRun⟩

end HumanVal
